import Mathlib

/-!
Shallow embedding of the Telegram media-extractor bot
(`config.py`, `utils.py`, `media_extractor.py`, `bot.py`).

External collaborators (the `mimetypes`, `hashlib`, `urljoin`, `re.findall`
library calls, the BeautifulSoup HTML parser, the network, and the yt-dlp
engine) are passed in as function parameters, mirroring the spec's decision
to treat them as black boxes.  Everything written in the repository itself
is translated directly from the source.

Modelling conventions:
 - bytes are `Nat` (0..255), byte strings `List Nat`;
 - Python `None`-able values are `Option`;
 - Python exceptions are `Except`/`Option` results;
 - a "temporary artifact" created by `create_temp_file` is recorded as the
   byte size of the written content in an explicit artifact log;
 - times are `Int` seconds;
 - percent-decoding (`urllib.parse.unquote`) is modelled per byte (UTF-8
   recombination of multibyte sequences is not modelled);
 - `str.lower` is modelled on ASCII letters, which is exact for all the
   strings the code compares against.
-/

namespace MediaBot

/-- Boolean test that the first list is an initial segment of the second. -/
def seqIsStartOf {α : Type} [BEq α] : List α → List α → Bool
  | [], _ => true
  | _ :: _, [] => false
  | a :: as, b :: bs => a == b && seqIsStartOf as bs

/-- Boolean test that the first list occurs contiguously inside the second. -/
def seqIsSegOf {α : Type} [BEq α] (pat : List α) : List α → Bool
  | [] => pat.isEmpty
  | b :: bs => seqIsStartOf pat (b :: bs) || seqIsSegOf pat bs

/-- Split a character list at every occurrence of a separator character. -/
def splitOnCharGo (sep : Char) : List Char → List Char → List (List Char)
  | [], acc => [acc.reverse]
  | c :: rest, acc =>
    if c = sep then acc.reverse :: splitOnCharGo sep rest []
    else splitOnCharGo sep rest (c :: acc)

/-- Split a string on a separator character (Python `s.split(sep)`). -/
def splitOnChar (sep : Char) (s : String) : List String :=
  (splitOnCharGo sep s.toList []).map List.asString

/-- ASCII lowercase of a string, as used by Python `str.lower()` on the
ASCII data handled here. -/
def lowerStr (s : String) : String :=
  (s.toList.map Char.toLower).asString

/-- First `n` characters of a string, Python `s[:n]`. -/
def strTake (s : String) (n : Nat) : String :=
  (s.toList.take n).asString

/-- Python `s.startswith(pat)`. -/
def strStarts (s pat : String) : Bool :=
  seqIsStartOf pat.toList s.toList

/-- Python `s.endswith(pat)`. -/
def strEnds (s pat : String) : Bool :=
  seqIsStartOf pat.toList.reverse s.toList.reverse

/-- Python `pat in hay` substring test. -/
def strContains (hay pat : String) : Bool :=
  seqIsSegOf pat.toList hay.toList

/-- Value of a hexadecimal digit character, `none` when not a hex digit. -/
def hexVal (c : Char) : Option Nat :=
  if '0' ≤ c ∧ c ≤ '9' then some (c.toNat - 48)
  else if 'a' ≤ c ∧ c ≤ 'f' then some (c.toNat - 87)
  else if 'A' ≤ c ∧ c ≤ 'F' then some (c.toNat - 55)
  else none

/-- Percent-decoding of `urllib.parse.unquote`, per byte: a `%` followed by
two hex digits becomes the denoted byte, malformed escapes stay as-is. -/
def unquoteGo : Nat → List Char → List Char
  | 0, cs => cs
  | _ + 1, [] => []
  | fuel + 1, '%' :: c1 :: c2 :: rest =>
    match hexVal c1, hexVal c2 with
    | some a, some b => Char.ofNat (16 * a + b) :: unquoteGo fuel rest
    | _, _ => '%' :: unquoteGo fuel (c1 :: c2 :: rest)
  | fuel + 1, c :: rest => c :: unquoteGo fuel rest

/-- Percent-decoding driver; the fuel equals the input length, and every
step consumes at least one character, so the fuel never runs out. -/
def unquoteChars (cs : List Char) : List Char :=
  unquoteGo cs.length cs

/-- String form of `unquoteChars`. -/
def unquoteStr (s : String) : String :=
  (unquoteChars s.toList).asString

/-! Constants of `config.py`. -/

/-- config.py: photo size ceiling (200MB). -/
def MAX_PHOTO_SIZE : Nat := 200 * 1024 * 1024

/-- config.py: video size ceiling (3GB). -/
def MAX_VIDEO_SIZE : Nat := 3 * 1024 * 1024 * 1024

/-- config.py: document size ceiling (3GB). -/
def MAX_DOCUMENT_SIZE : Nat := 3 * 1024 * 1024 * 1024

/-- config.py: auto-delete delay in hours. -/
def AUTO_DELETE_AFTER_HOURS : Nat := 1

/-- config.py: supported image extensions. -/
def SUPPORTED_IMAGE_FORMATS : List String :=
  [".jpg", ".jpeg", ".png", ".gif", ".webp", ".bmp"]

/-- config.py: supported video extensions. -/
def SUPPORTED_VIDEO_FORMATS : List String :=
  [".mp4", ".avi", ".mov", ".mkv", ".webm", ".m4v"]

/-! Model of `urllib.parse.urlparse`, restricted to the fields the code
reads (`scheme`, `netloc`, `path`), following CPython's `urlsplit` plus the
params split of `urlparse`. -/

/-- Result of `urlparse`: the three fields the repository reads. -/
structure UrlParts where
  scheme : String
  netloc : String
  path : String
deriving DecidableEq

/-- Characters allowed after the first character of a URL scheme. -/
def schemeCharB (c : Char) : Bool :=
  c.isAlpha || c.isDigit || c = '+' || c = '-' || c = '.'

/-- Scheme split of CPython `urlsplit`: a leading `name:` is a scheme when
`name` is nonempty, starts with an ASCII letter and contains only scheme
characters; the scheme is lowercased.  Returns `(scheme, rest)`. -/
def splitSchemeCs (cs : List Char) : List Char × List Char :=
  match cs.findIdx? (· = ':') with
  | none => ([], cs)
  | some i =>
    match cs.take i with
    | [] => ([], cs)
    | c0 :: restSch =>
      if c0.isAlpha && restSch.all schemeCharB then
        ((c0 :: restSch).map Char.toLower, cs.drop (i + 1))
      else ([], cs)

/-- Netloc split of CPython `urlsplit`: after `//`, up to the first of
`/`, `?` or `#`.  Returns `(netloc, rest)`. -/
def splitNetlocCs (cs : List Char) : List Char × List Char :=
  match cs with
  | '/' :: '/' :: rest =>
    let nl := rest.takeWhile (fun c => !(c = '/' || c = '?' || c = '#'))
    (nl, rest.drop nl.length)
  | _ => ([], cs)

/-- Params split of CPython `urlparse._splitparams`: drop a `;suffix` of the
last path segment. -/
def splitParamsCs (cs : List Char) : List Char :=
  if cs.contains '/' then
    let lastSeg := (cs.reverse.takeWhile (· ≠ '/')).reverse
    cs.take (cs.length - lastSeg.length) ++ lastSeg.takeWhile (· ≠ ';')
  else cs.takeWhile (· ≠ ';')

/-- utils.py collaborator: `urllib.parse.urlparse`, restricted to scheme,
netloc and path (query, fragment and params are split off and dropped). -/
def urlparse (url : String) : UrlParts :=
  let cs := url.toList
  let s1 := splitSchemeCs cs
  let s2 := splitNetlocCs s1.2
  let afterFrag := s2.2.takeWhile (· ≠ '#')
  let afterQuery := afterFrag.takeWhile (· ≠ '?')
  { scheme := s1.1.asString
    netloc := s2.1.asString
    path := (splitParamsCs afterQuery).asString }

/-- utils.py `validate_url`: true when both scheme and netloc are nonempty;
CPython raises `ValueError` on an unbalanced bracket in the netloc, which
`validate_url` catches and turns into `False`. -/
def validateUrl (url : String) : Bool :=
  let p := urlparse url
  let nl := p.netloc.toList
  if (nl.contains '[' && !nl.contains ']') || (nl.contains ']' && !nl.contains '[') then
    false
  else !p.scheme.isEmpty && !p.netloc.isEmpty

/-! Model of `pathlib.PurePath.name` and `.suffix` (classic behaviour). -/

/-- pathlib `Path(p).name`: last path component, with empty and `.`
components dropped. -/
def pathName (p : String) : String :=
  (((splitOnChar '/' p).filter (fun seg => seg != "" && seg != ".")).getLastD "")

/-- pathlib `Path(p).suffix`: from the last `.` of the name, empty when the
name has no dot, starts with its only dot, or ends with the dot. -/
def pathSuffix (p : String) : String :=
  let n := (pathName p).toList
  match n.reverse.findIdx? (· = '.') with
  | none => ""
  | some j =>
    let i := n.length - 1 - j
    if 0 < i ∧ i < n.length - 1 then (n.drop i).asString else ""

/-! Functions of `utils.py`. -/

/-- utils.py `get_file_extension_from_url`. -/
def getFileExtensionFromUrl (url : String) : String :=
  lowerStr (pathSuffix (unquoteStr (urlparse url).path))

/-- utils.py `get_file_extension_from_content_type`; `guessExt` is the
`mimetypes.guess_extension` collaborator. -/
def getFileExtensionFromContentType (guessExt : String → Option String)
    (contentType : Option String) : Option String :=
  match contentType with
  | none => none
  | some s =>
    if s = "" then none
    else
      match guessExt ((splitOnChar ';' s).headD "") with
      | none => none
      | some e => if e = "" then none else some (lowerStr e)

/-- Shared extension dispatch of `is_supported_media` / `is_image` /
`is_video`: URL parsing for `http*` strings, path suffix otherwise. -/
def mediaExt (s : String) : String :=
  if strStarts s "http" then getFileExtensionFromUrl s
  else lowerStr (pathSuffix s)

/-- utils.py `is_image`. -/
def isImage (s : String) : Bool :=
  SUPPORTED_IMAGE_FORMATS.contains (mediaExt s)

/-- utils.py `is_video`. -/
def isVideo (s : String) : Bool :=
  SUPPORTED_VIDEO_FORMATS.contains (mediaExt s)

/-- utils.py `is_supported_media`. -/
def isSupportedMedia (s : String) : Bool :=
  SUPPORTED_IMAGE_FORMATS.contains (mediaExt s) ||
  SUPPORTED_VIDEO_FORMATS.contains (mediaExt s)

/-- The filename the URL's path itself carries (before the synthesis
fallback of `get_filename_from_url`). -/
def rawFilename (url : String) : String :=
  pathName (unquoteStr (urlparse url).path)

/-- utils.py `get_filename_from_url`; `md5hex` is the
`hashlib.md5(...).hexdigest()` collaborator. -/
def getFilenameFromUrl (md5hex : String → String) (url : String) : String :=
  let filename := rawFilename url
  if filename.isEmpty || !(filename.toList.contains '.') then
    "media_" ++ strTake (md5hex url) 8
  else filename

/-- utils.py `create_temp_file` suffix logic: the artifact's name is a fresh
temp stem plus the extension (dotted when the extension lacks a dot). -/
def mkTempPath (ext : String) : String :=
  "/tmp/tmpmedia" ++
  (if ext != "" && strStarts ext "." then ext
   else if ext != "" then "." ++ ext
   else "")

/-! Model of `media_extractor.py`: the Direct Fetcher
(`MediaExtractor._download_direct_media`). -/

/-- An HTTP response as the `requests` session delivers it: status code,
optional numeric `content-length` header, optional `content-type` header and
the streamed body chunks (bytes as `Nat`). -/
structure Response where
  status : Nat
  contentLength : Option Nat
  contentType : Option String
  chunks : List (List Nat)
deriving DecidableEq

/-- The distinct failure exits of `_download_direct_media` (all raised as
exceptions in the source; the spec's taxonomy distinguishes them). -/
inductive DownloadErr where
  | network
  | httpStatus
  | oversizeHeader
  | oversizeStream
  | notMedia
deriving DecidableEq

/-- A media kind as classified by the fetcher. -/
inductive MediaKind where
  | image
  | video
  | document
deriving DecidableEq

/-- The `media_info` dictionary returned per downloaded file. -/
structure MediaInfo where
  filePath : String
  filename : String
  size : Nat
  type : MediaKind
  url : String
  contentType : Option String
  title : Option String
deriving DecidableEq

/-! External library calls made by the extractor are passed in as black-box
function parameters: `mimetypes.guess_extension` (`guessExt`),
`hashlib.md5(...).hexdigest()` (`md5hex`), `urllib.parse.urljoin`
(`urljoin`), the Google-images `re.findall` scan (`imgMatches`), and
BeautifulSoup parsing of a page body into the tag lists the scraper reads
(`parseHtml`). -/

/-- `requests.Response.raise_for_status` raises exactly for 4xx and 5xx. -/
def statusError (r : Response) : Bool :=
  decide (400 ≤ r.status) && decide (r.status < 600)

/-- True when the declared `content-length` header exceeds the ceiling. -/
def headerOversize (maxDoc : Nat) (r : Response) : Bool :=
  match r.contentLength with
  | some n => decide (maxDoc < n)
  | none => false

/-- Total byte size of the response body. -/
def totalLen (r : Response) : Nat :=
  (r.chunks.map List.length).sum

/-- The byte string `b'<html'`. -/
def htmlMarkerBytes : List Nat := [60, 104, 116, 109, 108]

/-- Python `bytes.lower()`: ASCII uppercase bytes are shifted down. -/
def bytesLower (bs : List Nat) : List Nat :=
  bs.map (fun b => if 65 ≤ b ∧ b ≤ 90 then b + 32 else b)

/-- The HTML test of `_download_direct_media` line 108, expressed on the
whole response: lowered content-type declares `text/html`, or the first
1000 body bytes contain `<html` case-insensitively. -/
def htmlIndicated (r : Response) : Bool :=
  strStarts (lowerStr (r.contentType.getD "")) "text/html" ||
  seqIsSegOf htmlMarkerBytes (bytesLower ((r.chunks.flatten).take 1000))

/-- The streaming download loop of `_download_direct_media` lines 100-104:
append each chunk, abort as soon as the accumulated content exceeds the
ceiling. -/
def downloadBodyGo (maxDoc : Nat) (acc : List Nat) :
    List (List Nat) → Except Unit (List Nat)
  | [] => .ok acc
  | c :: rest =>
    let acc2 := acc ++ c
    if acc2.length > maxDoc then .error () else downloadBodyGo maxDoc acc2 rest

/-- Full body download subject to the ceiling. -/
def downloadBody (maxDoc : Nat) (chunks : List (List Nat)) :
    Except Unit (List Nat) :=
  downloadBodyGo maxDoc [] chunks

/-- File-name extension lists used inline at lines 133 and 138. -/
def imageNameExts : List String :=
  [".jpg", ".jpeg", ".png", ".gif", ".webp", ".bmp"]

/-- Video extensions checked against the filename at line 138. -/
def videoNameExts : List String :=
  [".mp4", ".avi", ".mov", ".mkv", ".webm", ".m4v"]

/-- Media-kind classification of `_download_direct_media` lines 130-140. -/
def classifyMediaKind (ctLower tempPath url filename : String) : MediaKind :=
  let isImageType :=
    strStarts ctLower "image/" || isImage tempPath || isImage url ||
      imageNameExts.any (fun e => strEnds (lowerStr filename) e)
  let isVideoType :=
    strStarts ctLower "video/" || isVideo tempPath || isVideo url ||
      videoNameExts.any (fun e => strEnds (lowerStr filename) e)
  if isImageType then .image else if isVideoType then .video else .document

/-- The content-type driven extension override of lines 114-125. -/
def imageExtOverride (ctLower ext : String) : String :=
  if strStarts ctLower "image/" then
    if strContains ctLower "jpeg" || strContains ctLower "jpg" then ".jpg"
    else if strContains ctLower "png" then ".png"
    else if strContains ctLower "gif" then ".gif"
    else if strContains ctLower "webp" then ".webp"
    else ".jpg"
  else ext

/-- `MediaExtractor._download_direct_media`, acting on an already received
response for `url`.  Returns the raised error or the single `media_info`,
together with the log of temporary artifacts created (their byte sizes);
an artifact is created exactly when `create_temp_file` is reached. -/
def downloadDirectMedia (maxDoc : Nat) (guessExt : String → Option String)
    (md5hex : String → String) (url : String) (r : Response) :
    Except DownloadErr MediaInfo × List Nat :=
  if statusError r then (.error .httpStatus, [])
  else if headerOversize maxDoc r then (.error .oversizeHeader, [])
  else
    let ext0 :=
      match getFileExtensionFromContentType guessExt r.contentType with
      | some e => e
      | none => getFileExtensionFromUrl url
    match downloadBody maxDoc r.chunks with
    | .error _ => (.error .oversizeStream, [])
    | .ok content =>
      let ctLower := lowerStr (r.contentType.getD "")
      if strStarts ctLower "text/html" ||
          seqIsSegOf htmlMarkerBytes (bytesLower (content.take 1000)) then
        (.error .notMedia, [])
      else
        let filename := getFilenameFromUrl md5hex url
        let ext := imageExtOverride ctLower ext0
        let tempPath := mkTempPath ext
        (.ok { filePath := tempPath
               filename := filename
               size := content.length
               type := classifyMediaKind ctLower tempPath url filename
               url := url
               contentType := some ctLower
               title := none },
         [content.length])

/-! Network world and remaining extractor strategies. -/

/-- A network operation issued by the extractor, for stating that a given
path performs no (or which) network traffic. -/
inductive NetOp where
  | head (url : String)
  | get (url : String)
  | ytInfo (url : String)
  | ytDownload (url : String)
deriving DecidableEq

/-- One format dictionary offered by the yt-dlp engine.  For the two size
fields, `none` models both an absent key and an explicit `None` value:
lines 184-185 guard them with Python truthiness, so the two are
indistinguishable there.  `quality` records what `fmt.get('quality', 0)`
observes: `some q` an integer (`0` when the key is absent), `none` an
explicit `None` value - which line 186 compares without any guard, raising
`TypeError`. -/
structure YtFormat where
  filesize : Option Nat
  filesizeApprox : Option Nat
  quality : Option Int
deriving DecidableEq

/-- One entry (single video) of a yt-dlp info result. -/
structure YtEntry where
  formats : List YtFormat
  title : Option String
deriving DecidableEq

/-- A yt-dlp `extract_info` result: either a playlist (`entries` present)
or a single entry. -/
structure YtInfo where
  entries : Option (List YtEntry)
  entryData : YtEntry
deriving DecidableEq

/-- The environment of network-dependent collaborators: `session.head`,
`session.get` (`none` models a raised network exception), yt-dlp info
extraction (`none` models failure or falsy info) and the yt-dlp download
step (temp directory and produced files with sizes; `none` models a raised
engine error). -/
structure NetWorld where
  head : String → Option Response
  get : String → Option Response
  ytdlpInfo : String → Option YtInfo
  ytdlpDownload : String → Option (String × List (String × Nat))

/-- `MediaExtractor._check_content_type`: header-only probe; any error is
swallowed and reported as "not media". -/
def checkContentType (net : NetWorld) (url : String) : Bool × List NetOp :=
  match net.head url with
  | none => (false, [.head url])
  | some r =>
    let ct := lowerStr (r.contentType.getD "")
    (strStarts ct "image/" || strStarts ct "video/" ||
       strContains ct "image" || strContains ct "video",
     [.head url])

/-- `MediaExtractor._is_direct_media_url`: extension match first, header
probe only when that is inconclusive (Python `or` short-circuits). -/
def isDirectMediaUrl (net : NetWorld) (url : String) : Bool × List NetOp :=
  if isSupportedMedia url then (true, [])
  else checkContentType net url

/-- `_download_direct_media` including its own `session.get`; a `none`
response is the raised network exception.  Returns result, artifact log and
network log. -/
def downloadFromUrl (maxDoc : Nat) (guessExt : String → Option String)
    (md5hex : String → String) (net : NetWorld) (url : String) :
    Except DownloadErr MediaInfo × List Nat × List NetOp :=
  match net.get url with
  | none => (.error .network, [], [.get url])
  | some r =>
    let res := downloadDirectMedia maxDoc guessExt md5hex url r
    (res.1, res.2, [.get url])

/-! The Platform Extractor (`MediaExtractor._extract_with_ytdlp`). -/

/-- Python `fmt.get('filesize') or fmt.get('filesize_approx', 0)`: the
approximate size substitutes whenever the declared one is absent or falsy;
`0` stands for every falsy outcome. -/
def effFilesize (f : YtFormat) : Nat :=
  match f.filesize with
  | some n => if n ≠ 0 then n else f.filesizeApprox.getD 0
  | none => f.filesizeApprox.getD 0

/-- The loop guard `if filesize and filesize <= MAX_VIDEO_SIZE` of
line 185. -/
def qualifiesFormat (maxVid : Nat) (f : YtFormat) : Bool :=
  decide (effFilesize f ≠ 0) && decide (effFilesize f ≤ maxVid)

/-- One step of the best-format scan of lines 183-187.  The quality
comparison is reached only when the candidate qualifies and a best format
is already held (Python `or` short-circuits); when either side of the
comparison is an explicit `None`, line 186 raises `TypeError`. -/
def pickBestStep (maxVid : Nat) (acc : Option YtFormat) (f : YtFormat) :
    Except Unit (Option YtFormat) :=
  if qualifiesFormat maxVid f then
    match acc with
    | none => .ok (some f)
    | some b =>
      match f.quality, b.quality with
      | some qf, some qb => .ok (if qf > qb then some f else some b)
      | _, _ => .error ()
  else .ok acc

/-- The best-format loop of lines 182-187; a raised comparison error
aborts the loop. -/
def pickBestGo (maxVid : Nat) (acc : Option YtFormat) :
    List YtFormat → Except Unit (Option YtFormat)
  | [] => .ok acc
  | f :: rest =>
    match pickBestStep maxVid acc f with
    | .ok acc2 => pickBestGo maxVid acc2 rest
    | .error e => .error e

/-- The best-format scan of lines 182-187 from an empty accumulator. -/
def pickBest (maxVid : Nat) (formats : List YtFormat) :
    Except Unit (Option YtFormat) :=
  pickBestGo maxVid none formats

/-- Format selection of lines 181-191: best in-budget format, else the
first offered format as fallback; a `TypeError` raised by the quality
comparison propagates to the caller. -/
def selectBestFormat (maxVid : Nat) (formats : List YtFormat) :
    Except Unit (Option YtFormat) :=
  match pickBest maxVid formats with
  | .error e => .error e
  | .ok (some b) => .ok (some b)
  | .ok none => .ok formats.head?

/-- `MediaExtractor._extract_with_ytdlp`: info extraction, playlist
first-entry policy, format selection, download and enumeration of supported
files; every failure - including a `TypeError` raised by the quality
comparison - reaches the catch at line 225 and yields `none` ("strategy
found nothing"). -/
def extractWithYtdlp (maxVid : Nat) (net : NetWorld) (url : String) :
    Option (List MediaInfo) × List NetOp :=
  match net.ytdlpInfo url with
  | none => (none, [.ytInfo url])
  | some info =>
    let entryOpt : Option YtEntry :=
      match info.entries with
      | some es => es.head?
      | none => some info.entryData
    match entryOpt with
    | none => (none, [.ytInfo url])
    | some entry =>
      if entry.formats.isEmpty then (none, [.ytInfo url])
      else
        match selectBestFormat maxVid entry.formats with
        | .error _ => (none, [.ytInfo url])
        | .ok none => (none, [.ytInfo url])
        | .ok (some _) =>
          match net.ytdlpDownload url with
          | none => (none, [.ytInfo url, .ytDownload url])
          | some (dir, files) =>
            let kept := files.filter (fun f => isSupportedMedia (dir ++ "/" ++ f.1))
            let mis := kept.map (fun f =>
              { filePath := dir ++ "/" ++ f.1
                filename := f.1
                size := f.2
                type := if isVideo (dir ++ "/" ++ f.1) then MediaKind.video
                        else MediaKind.image
                url := url
                contentType := none
                title := some (entry.title.getD "Unknown") : MediaInfo })
            (if mis.isEmpty then none else some mis,
             [.ytInfo url, .ytDownload url])

/-! The Page Scraper (`MediaExtractor._scrape_media_from_page`). -/

/-- One `img` element as BeautifulSoup exposes it to the scraper. -/
structure ImgTag where
  src : Option String
  dataSrc : Option String
  width : Option String
  height : Option String
deriving DecidableEq

/-- The parsed document: the tag collections the scraper iterates.
`scripts` carries each script's `.string` (`none` when absent); the source
lists carry the attribute values of tags that have the attribute; `ogImage`
is the `og:image` meta tag and its `content` attribute. -/
structure Page where
  scripts : List (Option String)
  imgs : List ImgTag
  videoSrcs : List String
  sourceSrcs : List String
  linkHrefs : List String
  ogImage : Option (Option String)
deriving DecidableEq

/-- Python `int(str)`: optional surrounding whitespace, optional sign,
nonempty digit run. -/
def parseIntPy (s : String) : Option Int :=
  let t := (s.toList.dropWhile Char.isWhitespace).reverse
    |>.dropWhile Char.isWhitespace |>.reverse
  let signDigits : Int × List Char :=
    match t with
    | '-' :: rest => (-1, rest)
    | '+' :: rest => (1, rest)
    | l => (1, l)
  if signDigits.2.isEmpty || !signDigits.2.all Char.isDigit then none
  else some (signDigits.1 *
    (signDigits.2.foldl (fun a c => a * 10 + (c.toNat - 48)) 0 : Nat))

/-- Python `set.add` on the insertion-order model of a set. -/
def insertSet (s : List String) (x : String) : List String :=
  if s.contains x then s else s ++ [x]

/-- Join a candidate against the page URL and add it when it is supported
media (`urljoin` is the black-box collaborator). -/
def addIfSupported (urljoin : String → String → String) (base : String)
    (s : List String) (v : String) : List String :=
  let u := urljoin base v
  if isSupportedMedia u then insertSet s u else s

/-- Inner loop of the Google-images scan (lines 247-251): keep matches from
the trusted hosts, stop once the set reaches 3. -/
def googleAddMatches (s : List String) : List String → List String
  | [] => s
  | m :: ms =>
    if strContains m "googleusercontent.com" || strContains m "wikimedia.org" then
      let s2 := insertSet s m
      if 3 ≤ s2.length then s2 else googleAddMatches s2 ms
    else googleAddMatches s ms

/-- Outer loop of the Google-images scan (lines 241-253); `imgMatches` is
the `re.findall` collaborator. -/
def googleScan (imgMatches : String → List String) (s : List String) :
    List (Option String) → List String
  | [] => s
  | none :: rest => googleScan imgMatches s rest
  | some str :: rest =>
    let s2 := googleAddMatches s (imgMatches str)
    if 3 ≤ s2.length then s2 else googleScan imgMatches s2 rest

/-- The small-image skip heuristic of lines 260-269: skip only when both
declared dimensions parse and one is below 100 (a parse failure is
`pass`ed). -/
def imgSkipSmall (img : ImgTag) : Bool :=
  match img.width, img.height with
  | some w, some h =>
    if w != "" && h != "" then
      match parseIntPy w, parseIntPy h with
      | some wi, some hi => decide (wi < 100) || decide (hi < 100)
      | _, _ => false
    else false
  | _, _ => false

/-- First image pass (lines 256-272): `img` tags with `src`. -/
def imgPass1 (urljoin : String → String → String) (pageUrl : String)
    (s : List String) (imgs : List ImgTag) : List String :=
  imgs.foldl (fun acc img =>
    match img.src with
    | none => acc
    | some src =>
      if src = "" then acc
      else
        let imgUrl := urljoin pageUrl src
        if imgSkipSmall img then acc
        else if isSupportedMedia imgUrl && !strContains imgUrl "data:image" then
          insertSet acc imgUrl
        else acc) s

/-- Second image pass (lines 275-280): lazy-load `data-src`. -/
def imgPass2 (urljoin : String → String → String) (pageUrl : String)
    (s : List String) (imgs : List ImgTag) : List String :=
  imgs.foldl (fun acc img =>
    match img.dataSrc with
    | none => acc
    | some d =>
      if d = "" then acc else addIfSupported urljoin pageUrl acc d) s

/-- Shared shape of the `video` / `source` / anchor passes
(lines 283-304). -/
def addSrcList (urljoin : String → String → String) (pageUrl : String)
    (s : List String) (l : List String) : List String :=
  l.foldl (fun acc v =>
    if v = "" then acc else addIfSupported urljoin pageUrl acc v) s

/-- Candidate collection of `_scrape_media_from_page` lines 236-313. -/
def collectMediaUrls (urljoin : String → String → String)
    (imgMatches : String → List String) (url : String) (page : Page) :
    List String :=
  let s0 : List String := []
  let s1 :=
    if strContains url "google.com" && strContains url "tbm=isch" then
      googleScan imgMatches s0 page.scripts
    else s0
  let s2 := imgPass1 urljoin url s1 page.imgs
  let s3 := imgPass2 urljoin url s2 page.imgs
  let s4 := addSrcList urljoin url s3 page.videoSrcs
  let s5 := addSrcList urljoin url s4 page.sourceSrcs
  let s6 := addSrcList urljoin url s5 page.linkHrefs
  match page.ogImage with
  | some (some c) =>
    if c = "" then s6 else addIfSupported urljoin url s6 c
  | _ => s6

/-- Download loop of lines 316-323: each candidate independently, failures
skipped. -/
def scrapeDownloads (maxDoc : Nat) (guessExt : String → Option String)
    (md5hex : String → String) (net : NetWorld) :
    List String → List MediaInfo × List Nat × List NetOp
  | [] => ([], [], [])
  | u :: rest =>
    let d := downloadFromUrl maxDoc guessExt md5hex net u
    let recur := scrapeDownloads maxDoc guessExt md5hex net rest
    match d.1 with
    | .ok mi => (mi :: recur.1, d.2.1 ++ recur.2.1, d.2.2 ++ recur.2.2)
    | .error _ => (recur.1, d.2.1 ++ recur.2.1, d.2.2 ++ recur.2.2)

/-- `MediaExtractor._scrape_media_from_page`: any failure of the page fetch
itself (network raise or bad status) is caught by the trailing
`except Exception` and becomes `none`; candidates are deduplicated into a
set, capped at 5, then downloaded one by one. -/
def scrapeMediaFromPage (maxDoc : Nat) (guessExt : String → Option String)
    (md5hex : String → String) (urljoin : String → String → String)
    (imgMatches : String → List String) (parseHtml : List Nat → Page)
    (net : NetWorld) (url : String) :
    Option (List MediaInfo) × List Nat × List NetOp :=
  match net.get url with
  | none => (none, [], [.get url])
  | some r =>
    if statusError r then (none, [], [.get url])
    else
      let page := parseHtml r.chunks.flatten
      let cands := (collectMediaUrls urljoin imgMatches url page).take 5
      let d := scrapeDownloads maxDoc guessExt md5hex net cands
      ((if d.1.isEmpty then none else some d.1), d.2.1, NetOp.get url :: d.2.2)

/-! The Resolution Orchestrator (`MediaExtractor.extract_media_from_url`)
and the bot layer of `bot.py`. -/

/-- The failures `extract_media_from_url` can surface to its caller. -/
inductive ExtractErr where
  | invalidUrl
  | download (e : DownloadErr)
  | noMediaFound
deriving DecidableEq

/-- `MediaExtractor.extract_media_from_url`: validation, then Direct
Fetcher (when the classifier fires), then yt-dlp, then the scraper; with
result, artifact log, and network log. -/
def extractMediaFromUrl (maxDoc maxVid : Nat)
    (guessExt : String → Option String) (md5hex : String → String)
    (urljoin : String → String → String)
    (imgMatches : String → List String) (parseHtml : List Nat → Page)
    (net : NetWorld) (url : String) :
    Except ExtractErr (List MediaInfo) × List Nat × List NetOp :=
  if !validateUrl url then (.error .invalidUrl, [], [])
  else
    let direct := isDirectMediaUrl net url
    if direct.1 then
      let d := downloadFromUrl maxDoc guessExt md5hex net url
      (match d.1 with
       | .ok mi => .ok [mi]
       | .error e => .error (.download e), d.2.1, direct.2 ++ d.2.2)
    else
      let yt := extractWithYtdlp maxVid net url
      match yt.1 with
      | some ms => (.ok ms, [], direct.2 ++ yt.2)
      | none =>
        let sc := scrapeMediaFromPage maxDoc guessExt md5hex urljoin
          imgMatches parseHtml net url
        match sc.1 with
        | some ms => (.ok ms, sc.2.1, direct.2 ++ yt.2 ++ sc.2.2)
        | none => (.error .noMediaFound, sc.2.1, direct.2 ++ yt.2 ++ sc.2.2)

/-! URL extraction of `bot.py._extract_urls`.  The regex
`http[s]?://(?:[a-zA-Z]|[0-9]|[$-_@.&+]|[!*\\(\\),]|(?:%[0-9a-fA-F][0-9a-fA-F]))+`
matches a scheme then a maximal nonempty run of characters from the union
of its alternatives, which simplifies to ASCII letters, the byte range
36-95 (which already contains digits, uppercase letters, `%xx` escapes and
all the listed punctuation except `!`), and `!`. -/

/-- A character the URL regex accepts after the scheme. -/
def urlChar (c : Char) : Bool :=
  c.isAlpha || (decide (36 ≤ c.toNat) && decide (c.toNat ≤ 95)) || c = '!'

/-- The characters of `https://`. -/
def httpsChars : List Char := ['h', 't', 't', 'p', 's', ':', '/', '/']

/-- The characters of `http://`. -/
def httpChars : List Char := ['h', 't', 't', 'p', ':', '/', '/']

/-- Match the scheme part at the head of the text (greedy optional `s`,
as the regex backtracking resolves it). -/
def dropSchemeHttp (cs : List Char) : Option (List Char × List Char) :=
  if seqIsStartOf httpsChars cs then some (httpsChars, cs.drop 8)
  else if seqIsStartOf httpChars cs then some (httpChars, cs.drop 7)
  else none

/-- Full regex match at the head of the text: scheme plus a nonempty
maximal run of allowed characters; returns the matched text. -/
def urlRunOf (cs : List Char) : Option (List Char) :=
  match dropSchemeHttp cs with
  | none => none
  | some (sch, rest) =>
    let run := rest.takeWhile urlChar
    if run.isEmpty then none else some (sch ++ run)

/-- `re.findall` scan: non-overlapping matches left to right, resuming
after each match; fueled by the text length (each step consumes at least
one character, so the fuel suffices). -/
def findUrlsGo : Nat → List Char → List String
  | 0, _ => []
  | _ + 1, [] => []
  | fuel + 1, c :: rest =>
    match urlRunOf (c :: rest) with
    | some m => m.asString :: findUrlsGo fuel (rest.drop (m.length - 1))
    | none => findUrlsGo fuel rest

/-- All regex matches in a text. -/
def findUrls (text : String) : List String :=
  findUrlsGo text.toList.length text.toList

/-- `bot.py TelegramMediaBot._extract_urls`: regex scan then syntactic
validation. -/
def extractUrls (text : String) : List String :=
  (findUrls text).filter validateUrl

/-- The outcome of `handle_url_message`: either the no-URLs reply, or the
list of URLs handed to `_process_url`. -/
inductive BotAction where
  | replyNoUrls
  | processList (urls : List String)
deriving DecidableEq

/-- `bot.py TelegramMediaBot.handle_url_message` (URL handling part):
extract, reject when empty, else process only the first three. -/
def handleUrlMessage (text : String) : BotAction :=
  let urls := extractUrls text
  if urls.isEmpty then .replyNoUrls else .processList (urls.take 3)

/-- The URLs a bot action processes. -/
def processedUrls : BotAction → List String
  | .replyNoUrls => []
  | .processList l => l

/-! The Delivery Tracker (`bot.py auto_delete_worker`), one sweep tick. -/

/-- One row of `self.sent_messages`; `warned` defaults to false
(`message_info.get('warned', False)`). -/
structure MsgEntry where
  chatId : Int
  messageId : Int
  sentTime : Int
  filename : String
  warned : Bool
deriving DecidableEq

/-- Warning condition of lines 51-53: inside the five-minute window before
expiry and not yet warned. -/
def warnCond (thr now : Int) (e : MsgEntry) : Bool :=
  decide (now - e.sentTime > thr - 300) && decide (now - e.sentTime < thr) &&
    !e.warned

/-- Expiry condition of lines 40-41. -/
def expireCond (thr now : Int) (e : MsgEntry) : Bool :=
  decide (now - e.sentTime > thr)

/-- One tick of `auto_delete_worker`.  Both passes call
`asyncio.create_task` inside a `try`, and the mutation that follows it
(the `warned := true` assignment in the warning pass at lines 56-60, the
`del` in the delete pass at lines 71-74) runs only when `create_task` does
not raise; a raise is caught and only logged.  `createTaskOk` models that
outcome.  It is constant across a tick because it depends only on whether
the calling thread has a running asyncio event loop - and
`auto_delete_worker` runs in a plain daemon `threading.Thread` without
one, where `asyncio.create_task` always raises `RuntimeError`, so the
program executes every sweep with `createTaskOk = false`.  `deleteOk` is
the platform delete outcome, recorded in the delete log and unable to
affect the sweep because `_delete_message` swallows its own errors.
Returns the new table, the keys warned this tick, and the delete requests
issued. -/
def sweep (thr now : Int) (createTaskOk : Bool) (deleteOk : Int → Int → Bool)
    (table : List (String × MsgEntry)) :
    List (String × MsgEntry) × List String × List (Int × Int × Bool) :=
  let toDelete := (table.filter (fun kv => expireCond thr now kv.2)).map Prod.fst
  let warnKeys := if createTaskOk then
      (table.filter (fun kv => warnCond thr now kv.2)).map Prod.fst
    else []
  let table2 := if createTaskOk then
      table.map (fun kv =>
        if warnCond thr now kv.2 then (kv.1, { kv.2 with warned := true })
        else kv)
    else table
  let dels := if createTaskOk then
      toDelete.filterMap (fun k =>
        (table2.lookup k).map (fun e =>
          (e.chatId, e.messageId, deleteOk e.chatId e.messageId)))
    else []
  let table3 := if createTaskOk then
      table2.filter (fun kv => !toDelete.contains kv.1)
    else table2
  (table3, warnKeys, dels)

/-! Concrete collaborator instances and inputs used by witnesses and
counterexamples. -/

/-- A minimal `mimetypes.guess_extension` table for the common types. -/
def guessExtBasic (ct : String) : Option String :=
  if ct = "image/jpeg" then some ".jpg"
  else if ct = "image/png" then some ".png"
  else if ct = "image/gif" then some ".gif"
  else if ct = "video/mp4" then some ".mp4"
  else if ct = "text/html" then some ".html"
  else none

/-- A fixed stand-in for the md5 hexdigest collaborator. -/
def md5hexFixed (_ : String) : String := "0123456789abcdef0123456789abcdef"

/-- A `urljoin` stand-in: absolute candidates pass through, others are
joined naively; only its output strings matter to the theorems. -/
def urljoinBasic (base v : String) : String :=
  if strStarts v "http" then v else base ++ v

/-- An empty parsed page. -/
def emptyPage : Page :=
  { scripts := [], imgs := [], videoSrcs := [], sourceSrcs := [],
    linkHrefs := [], ogImage := none }

/-- A network world in which every operation fails. -/
def deadNet : NetWorld :=
  { head := fun _ => none, get := fun _ => none,
    ytdlpInfo := fun _ => none, ytdlpDownload := fun _ => none }

/-- A well-statused response whose body exceeds a tiny ceiling of 4. -/
def rOversize : Response :=
  { status := 200, contentLength := none, contentType := some "image/png",
    chunks := [[1, 2, 3], [4, 5]] }

/-- An HTML response whose declared length exceeds the document ceiling. -/
def rHtmlOversize : Response :=
  { status := 200, contentLength := some 4000000000,
    contentType := some "text/html", chunks := [] }

/-- A small well-statused HTML response. -/
def rHtmlSmall : Response :=
  { status := 200, contentLength := none, contentType := some "text/html",
    chunks := [[60, 104, 116, 109, 108]] }


/-! Helper lemmas. -/

/-- Behaviour of the streaming loop relative to the total body size, under
the invariant that the accumulated content is still within the ceiling. -/
theorem downloadBodyGo_spec (maxDoc : Nat) :
    ∀ (chunks : List (List Nat)) (acc : List Nat), acc.length ≤ maxDoc →
      (acc.length + (chunks.map List.length).sum ≤ maxDoc →
        downloadBodyGo maxDoc acc chunks = .ok (acc ++ chunks.flatten)) ∧
      (maxDoc < acc.length + (chunks.map List.length).sum →
        downloadBodyGo maxDoc acc chunks = .error ()) := by
  intro chunks
  induction chunks with
  | nil =>
    intro acc hacc
    refine ⟨fun _ => by simp [downloadBodyGo], fun hlt => ?_⟩
    simp at hlt
    omega
  | cons c rest ih =>
    intro acc hacc
    have hsum : ((c :: rest).map List.length).sum
        = c.length + (rest.map List.length).sum := by simp
    constructor
    · intro hle
      have hlen2 : (acc ++ c).length ≤ maxDoc := by
        rw [List.length_append]; omega
      unfold downloadBodyGo
      dsimp only
      rw [if_neg (by omega : ¬ (acc ++ c).length > maxDoc)]
      rw [(ih (acc ++ c) hlen2).1 (by rw [List.length_append]; omega)]
      simp
    · intro hlt
      unfold downloadBodyGo
      dsimp only
      by_cases hgt : (acc ++ c).length > maxDoc
      · rw [if_pos hgt]
      · rw [if_neg hgt]
        rw [List.length_append] at hgt
        exact (ih (acc ++ c) (by rw [List.length_append]; omega)).2
          (by rw [List.length_append]; omega)

/-- The download loop delivers the whole body when it fits the ceiling. -/
theorem downloadBody_ok (maxDoc : Nat) (chunks : List (List Nat))
    (h : (chunks.map List.length).sum ≤ maxDoc) :
    downloadBody maxDoc chunks = .ok chunks.flatten := by
  simpa using (downloadBodyGo_spec maxDoc chunks [] (by simp)).1 (by simpa using h)

/-- The download loop aborts when the body exceeds the ceiling. -/
theorem downloadBody_err (maxDoc : Nat) (chunks : List (List Nat))
    (h : maxDoc < (chunks.map List.length).sum) :
    downloadBody maxDoc chunks = .error () :=
  (downloadBodyGo_spec maxDoc chunks [] (by simp)).2 (by simpa using h)

/-- A supported image extension is never a supported video extension. -/
theorem imgVidExt_disjoint (e : String)
    (h : SUPPORTED_IMAGE_FORMATS.contains e = true) :
    SUPPORTED_VIDEO_FORMATS.contains e = false := by
  have hm : e ∈ SUPPORTED_IMAGE_FORMATS := by simpa using h
  fin_cases hm <;> decide

/-- Claim C10: the supported image-extension and video-extension sets are
disjoint, so `is_image` and `is_video` never both hold of one string, and
the Direct Fetcher's classifier assigns each descriptor exactly one kind
from the three-valued enum. -/
theorem c10_kind_classification :
    (∀ s : String, (isImage s && isVideo s) = false) ∧
    (∀ ctLower tempPath url filename : String,
      classifyMediaKind ctLower tempPath url filename = MediaKind.image ∨
      classifyMediaKind ctLower tempPath url filename = MediaKind.video ∨
      classifyMediaKind ctLower tempPath url filename = MediaKind.document) := by
  constructor
  · intro s
    cases h : isImage s with
    | false => simp
    | true =>
      have hv : isVideo s = false := by
        have hc : SUPPORTED_IMAGE_FORMATS.contains (mediaExt s) = true := by
          simpa [isImage] using h
        simpa [isVideo] using imgVidExt_disjoint (mediaExt s) hc
      simp [hv]
  · intro ctLower tempPath url filename
    unfold classifyMediaKind
    dsimp only
    split
    · exact Or.inl rfl
    · split
      · exact Or.inr (Or.inl rfl)
      · exact Or.inr (Or.inr rfl)

/-- Claim C7: an input failing syntactic URL validation is rejected with
the invalid-URL error immediately, with an empty network log: no network
operation is issued. -/
theorem c7_invalid_url_rejected_without_network
    (maxDoc maxVid : Nat) (guessExt : String → Option String)
    (md5hex : String → String) (urljoin : String → String → String)
    (imgMatches : String → List String) (parseHtml : List Nat → Page)
    (net : NetWorld) (url : String) (h : validateUrl url = false) :
    extractMediaFromUrl maxDoc maxVid guessExt md5hex urljoin imgMatches
      parseHtml net url = (.error .invalidUrl, [], []) := by
  simp [extractMediaFromUrl, h]

/-- Witness for C7 at the concrete non-URL input `notaurl`. -/
theorem c7_witness :
    validateUrl "notaurl" = false ∧
    extractMediaFromUrl MAX_DOCUMENT_SIZE MAX_VIDEO_SIZE guessExtBasic
      md5hexFixed urljoinBasic (fun _ => []) (fun _ => emptyPage) deadNet
      "notaurl" = (.error .invalidUrl, [], []) :=
  ⟨by decide,
   c7_invalid_url_rejected_without_network MAX_DOCUMENT_SIZE MAX_VIDEO_SIZE
     guessExtBasic md5hexFixed urljoinBasic (fun _ => []) (fun _ => emptyPage)
     deadNet "notaurl" (by decide)⟩

/-- Claim C9: a message handler run processes at most three URLs, and the
processed list is an initial segment of the extracted valid URLs (every
later valid URL is ignored). -/
theorem c9_at_most_three_urls (text : String) :
    (processedUrls (handleUrlMessage text)).length ≤ 3 ∧
    ∃ rest, extractUrls text = processedUrls (handleUrlMessage text) ++ rest := by
  unfold handleUrlMessage
  dsimp only
  split
  · exact ⟨by simp [processedUrls], extractUrls text, by simp [processedUrls]⟩
  · refine ⟨by simp [processedUrls, List.length_take], (extractUrls text).drop 3, ?_⟩
    simp [processedUrls]

/-- Claim C8: the display name is the URL path's own filename when that
filename exists and carries a dot, and otherwise is synthesized from the
md5 hash of the URL; the computation is a pure function of the URL, so
equal inputs always agree. -/
theorem c8_display_name (md5hex : String → String) (url : String) :
    ((rawFilename url = "" ∨ (rawFilename url).toList.contains '.' = false) →
      getFilenameFromUrl md5hex url = "media_" ++ strTake (md5hex url) 8) ∧
    (rawFilename url ≠ "" → (rawFilename url).toList.contains '.' = true →
      getFilenameFromUrl md5hex url = rawFilename url) ∧
    (∀ url2, url2 = url →
      getFilenameFromUrl md5hex url2 = getFilenameFromUrl md5hex url) := by
  refine ⟨?_, ?_, ?_⟩
  · intro h
    have hcond : ((rawFilename url).isEmpty ||
        !((rawFilename url).toList.contains '.')) = true := by
      rcases h with h | h
      · rw [h]; decide
      · rw [h]; simp
    unfold getFilenameFromUrl
    dsimp only
    split
    · rfl
    · next hfalse => exact absurd hcond hfalse
  · intro h1 h2
    have he : (rawFilename url).isEmpty = false := by
      cases he2 : (rawFilename url).isEmpty with
      | false => rfl
      | true => exact absurd ((String.isEmpty_iff _).1 he2) h1
    have hcond : ((rawFilename url).isEmpty ||
        !((rawFilename url).toList.contains '.')) = false := by
      rw [he, h2]; rfl
    unfold getFilenameFromUrl
    dsimp only
    split
    · next htrue => rw [hcond] at htrue; exact absurd htrue (by decide)
    · rfl
  · intro url2 h; rw [h]

/-- Witness for C8: both branches at concrete URLs (a path ending in a
directory, and a path carrying a dotted filename). -/
theorem c8_witness :
    getFilenameFromUrl md5hexFixed "https://x.test/dir/" =
      "media_" ++ strTake (md5hexFixed "https://x.test/dir/") 8 ∧
    getFilenameFromUrl md5hexFixed "https://x.test/a.jpg" =
      rawFilename "https://x.test/a.jpg" :=
  ⟨(c8_display_name md5hexFixed "https://x.test/dir/").1 (by decide),
   (c8_display_name md5hexFixed "https://x.test/a.jpg").2.1 (by decide) (by decide)⟩

/-- Claim C1: whenever the body exceeds the document ceiling on a response
that passed the status check, the Direct Fetcher aborts with one of the two
oversize errors and creates no temporary artifact; and unconditionally,
every artifact it persists has size within the ceiling. -/
theorem c1_size_ceiling (maxDoc : Nat) (guessExt : String → Option String)
    (md5hex : String → String) (url : String) (r : Response) :
    (statusError r = false → maxDoc < totalLen r →
      (((downloadDirectMedia maxDoc guessExt md5hex url r).1
          = .error .oversizeHeader ∨
        (downloadDirectMedia maxDoc guessExt md5hex url r).1
          = .error .oversizeStream) ∧
       (downloadDirectMedia maxDoc guessExt md5hex url r).2 = [])) ∧
    (∀ sz ∈ (downloadDirectMedia maxDoc guessExt md5hex url r).2,
      sz ≤ maxDoc) := by
  unfold downloadDirectMedia
  dsimp only
  split
  · next hs =>
    refine ⟨fun hsf _ => absurd hs (by simp [hsf]), ?_⟩
    intro sz hsz
    simp at hsz
  · next hs =>
    split
    · next hh =>
      exact ⟨fun _ _ => ⟨Or.inl rfl, rfl⟩, fun sz hsz => by simp at hsz⟩
    · next hh =>
      split
      · next val heq =>
        exact ⟨fun _ _ => ⟨Or.inr rfl, rfl⟩, fun sz hsz => by simp at hsz⟩
      · next content heq =>
        have hle : (r.chunks.map List.length).sum ≤ maxDoc := by
          by_contra hgt
          rw [downloadBody_err maxDoc r.chunks (by omega)] at heq
          exact Except.noConfusion heq
        have hcontent : content = r.chunks.flatten := by
          rw [downloadBody_ok maxDoc r.chunks hle] at heq
          exact (Except.ok.injEq _ _ ▸ heq).symm
        constructor
        · intro hsf hlt
          exact absurd hle (by simpa [totalLen] using Nat.not_le_of_lt hlt)
        · intro sz hsz
          split at hsz
          · simp at hsz
          · simp at hsz
            rw [hsz, hcontent]
            simpa [List.length_flatten] using hle

/-- Witness for C1: a two-chunk body of five bytes against a ceiling of
four aborts with the streaming oversize error and persists nothing. -/
theorem c1_witness :
    statusError rOversize = false ∧ 4 < totalLen rOversize ∧
    ((downloadDirectMedia 4 guessExtBasic md5hexFixed
        "http://x.test/a.png" rOversize).1 = .error .oversizeHeader ∨
     (downloadDirectMedia 4 guessExtBasic md5hexFixed
        "http://x.test/a.png" rOversize).1 = .error .oversizeStream) ∧
    (downloadDirectMedia 4 guessExtBasic md5hexFixed
        "http://x.test/a.png" rOversize).2 = [] := by
  refine ⟨by decide, by decide, ?_, ?_⟩
  · exact ((c1_size_ceiling 4 guessExtBasic md5hexFixed "http://x.test/a.png"
      rOversize).1 (by decide) (by decide)).1
  · exact ((c1_size_ceiling 4 guessExtBasic md5hexFixed "http://x.test/a.png"
      rOversize).1 (by decide) (by decide)).2

/-- Counterexample for C2 as stated: a response whose content-type starts
with `text/html` but whose declared length exceeds the document ceiling is
rejected with the oversize error, not the not-media error. -/
theorem c2_counterexample :
    htmlIndicated rHtmlOversize = true ∧
    (downloadDirectMedia MAX_DOCUMENT_SIZE guessExtBasic md5hexFixed
        "http://x.test/page" rHtmlOversize).1 = .error .oversizeHeader ∧
    (downloadDirectMedia MAX_DOCUMENT_SIZE guessExtBasic md5hexFixed
        "http://x.test/page" rHtmlOversize).1 ≠ .error .notMedia := by
  have h1 : (downloadDirectMedia MAX_DOCUMENT_SIZE guessExtBasic md5hexFixed
      "http://x.test/page" rHtmlOversize).1
        = Except.error DownloadErr.oversizeHeader := by rfl
  refine ⟨by decide, h1, fun hc => ?_⟩
  rw [h1] at hc
  injection hc with h2
  exact DownloadErr.noConfusion h2

/-- Claim C2 (amended): on a response that passes the status and both size
checks, an HTML content-type or an HTML marker in the leading bytes makes
the Direct Fetcher fail with the not-media error, producing no descriptor
and no temporary artifact. -/
theorem c2_html_rejected (maxDoc : Nat) (guessExt : String → Option String)
    (md5hex : String → String) (url : String) (r : Response)
    (hs : statusError r = false) (hh : headerOversize maxDoc r = false)
    (hb : totalLen r ≤ maxDoc) (hhtml : htmlIndicated r = true) :
    downloadDirectMedia maxDoc guessExt md5hex url r
      = (.error .notMedia, []) := by
  unfold downloadDirectMedia
  dsimp only
  rw [if_neg (by simp [hs]), if_neg (by simp [hh])]
  rw [downloadBody_ok maxDoc r.chunks (by simpa [totalLen] using hb)]
  dsimp only
  unfold htmlIndicated at hhtml
  rw [if_pos hhtml]

/-- Witness for C2 (amended) at a small HTML response. -/
theorem c2_witness :
    statusError rHtmlSmall = false ∧
    headerOversize MAX_DOCUMENT_SIZE rHtmlSmall = false ∧
    totalLen rHtmlSmall ≤ MAX_DOCUMENT_SIZE ∧
    htmlIndicated rHtmlSmall = true ∧
    downloadDirectMedia MAX_DOCUMENT_SIZE guessExtBasic md5hexFixed
      "http://x.test/page" rHtmlSmall = (.error .notMedia, []) :=
  ⟨by decide, by decide, by decide, by decide,
   c2_html_rejected MAX_DOCUMENT_SIZE guessExtBasic md5hexFixed
     "http://x.test/page" rHtmlSmall (by decide) (by decide) (by decide)
     (by decide)⟩

/-- Unfolding equation of the best-format loop on a cons cell. -/
theorem pickBestGo_cons (maxVid : Nat) (acc : Option YtFormat) (f : YtFormat)
    (t : List YtFormat) :
    pickBestGo maxVid acc (f :: t)
      = match pickBestStep maxVid acc f with
        | .ok acc2 => pickBestGo maxVid acc2 t
        | .error e => .error e := rfl

/-- When no scanned format qualifies, the loop reaches no quality
comparison and keeps its accumulator. -/
theorem pickBestGo_none (maxVid : Nat) :
    ∀ (l : List YtFormat) (acc : Option YtFormat),
      (∀ f ∈ l, qualifiesFormat maxVid f = false) →
      pickBestGo maxVid acc l = .ok acc := by
  intro l
  induction l with
  | nil => intro acc _; rfl
  | cons f t ih =>
    intro acc hall
    have hf : qualifiesFormat maxVid f = false := hall f (by simp)
    have hstep : pickBestStep maxVid acc f = .ok acc := by
      unfold pickBestStep; rw [if_neg (by simp [hf])]
    rw [pickBestGo_cons, hstep]
    exact ih acc (fun g hg => hall g (by simp [hg]))

/-- Invariant of the best-format loop when every qualifying format of the
scanned list carries an integer quality: no comparison raises, and the
accumulator stays a qualifying integer-quality format, never loses
quality, dominates every qualifying format scanned, and is either
inherited or drawn from the list. -/
theorem pickBestGo_spec (maxVid : Nat) :
    ∀ (l : List YtFormat) (acc : Option YtFormat),
      (∀ b, acc = some b → qualifiesFormat maxVid b = true ∧ b.quality ≠ none) →
      (∀ f ∈ l, qualifiesFormat maxVid f = true → f.quality ≠ none) →
      (∀ b, pickBestGo maxVid acc l = .ok (some b) →
        qualifiesFormat maxVid b = true ∧ b.quality ≠ none) ∧
      (∀ b, acc = some b → ∃ c, pickBestGo maxVid acc l = .ok (some c) ∧
        b.quality.getD 0 ≤ c.quality.getD 0) ∧
      (∀ f ∈ l, qualifiesFormat maxVid f = true →
        ∃ c, pickBestGo maxVid acc l = .ok (some c) ∧
          f.quality.getD 0 ≤ c.quality.getD 0) ∧
      (∀ b, pickBestGo maxVid acc l = .ok (some b) → acc = some b ∨ b ∈ l) := by
  intro l
  induction l with
  | nil =>
    intro acc hacc _
    refine ⟨?_, ?_, ?_, ?_⟩
    · intro b hb
      injection hb with hb2
      exact hacc b hb2
    · intro b hb
      refine ⟨b, ?_, le_refl _⟩
      rw [hb]
      rfl
    · intro f hf
      simp at hf
    · intro b hb
      injection hb with hb2
      exact Or.inl hb2
  | cons f t ih =>
    intro acc hacc hl
    have hlt : ∀ g ∈ t, qualifiesFormat maxVid g = true → g.quality ≠ none :=
      fun g hg => hl g (List.mem_cons_of_mem f hg)
    by_cases hq : qualifiesFormat maxVid f = true
    · have hfq : f.quality ≠ none := hl f (List.mem_cons_self f t) hq
      rcases acc with _ | b0
      · have hstep : pickBestStep maxVid none f = .ok (some f) := by
          unfold pickBestStep; rw [if_pos hq]
        have hgo : pickBestGo maxVid none (f :: t)
            = pickBestGo maxVid (some f) t := by
          rw [pickBestGo_cons, hstep]
        have ihm := ih (some f)
          (fun b hb => by injection hb with h2; rw [← h2]; exact ⟨hq, hfq⟩) hlt
        refine ⟨?_, ?_, ?_, ?_⟩
        · intro b hb; exact ihm.1 b (hgo ▸ hb)
        · intro b hb
          cases hb
        · intro g hg hgq
          rcases List.mem_cons.1 hg with rfl | hgt
          · obtain ⟨c, hc, hfc⟩ := ihm.2.1 g rfl
            exact ⟨c, hgo ▸ hc, hfc⟩
          · obtain ⟨c, hc, hgc⟩ := ihm.2.2.1 g hgt hgq
            exact ⟨c, hgo ▸ hc, hgc⟩
        · intro b hb
          rcases ihm.2.2.2 b (hgo ▸ hb) with h1 | h1
          · injection h1 with h2
            exact Or.inr (by rw [← h2]; exact List.mem_cons_self f t)
          · exact Or.inr (List.mem_cons_of_mem f h1)
      · have hb0 := hacc b0 rfl
        obtain ⟨qb, hqb⟩ : ∃ q, b0.quality = some q := by
          cases hqq : b0.quality with
          | none => exact absurd hqq hb0.2
          | some q => exact ⟨q, rfl⟩
        obtain ⟨qf, hqf⟩ : ∃ q, f.quality = some q := by
          cases hqq : f.quality with
          | none => exact absurd hqq hfq
          | some q => exact ⟨q, rfl⟩
        by_cases hcmp : qf > qb
        · have hstep : pickBestStep maxVid (some b0) f = .ok (some f) := by
            unfold pickBestStep
            rw [if_pos hq]
            dsimp only
            rw [hqf, hqb]
            dsimp only
            rw [if_pos hcmp]
          have hgo : pickBestGo maxVid (some b0) (f :: t)
              = pickBestGo maxVid (some f) t := by
            rw [pickBestGo_cons, hstep]
          have ihm := ih (some f)
            (fun b hb => by injection hb with h2; rw [← h2]; exact ⟨hq, hfq⟩)
            hlt
          refine ⟨?_, ?_, ?_, ?_⟩
          · intro b hb; exact ihm.1 b (hgo ▸ hb)
          · intro b hb
            injection hb with hb2
            obtain ⟨c, hc, hfc⟩ := ihm.2.1 f rfl
            refine ⟨c, hgo ▸ hc, ?_⟩
            rw [← hb2]
            have hble : b0.quality.getD 0 ≤ f.quality.getD 0 := by
              rw [hqf, hqb]; exact le_of_lt hcmp
            exact le_trans hble hfc
          · intro g hg hgq
            rcases List.mem_cons.1 hg with rfl | hgt
            · obtain ⟨c, hc, hfc⟩ := ihm.2.1 g rfl
              exact ⟨c, hgo ▸ hc, hfc⟩
            · obtain ⟨c, hc, hgc⟩ := ihm.2.2.1 g hgt hgq
              exact ⟨c, hgo ▸ hc, hgc⟩
          · intro b hb
            rcases ihm.2.2.2 b (hgo ▸ hb) with h1 | h1
            · injection h1 with h2
              exact Or.inr (by rw [← h2]; exact List.mem_cons_self f t)
            · exact Or.inr (List.mem_cons_of_mem f h1)
        · have hstep : pickBestStep maxVid (some b0) f = .ok (some b0) := by
            unfold pickBestStep
            rw [if_pos hq]
            dsimp only
            rw [hqf, hqb]
            dsimp only
            rw [if_neg hcmp]
          have hgo : pickBestGo maxVid (some b0) (f :: t)
              = pickBestGo maxVid (some b0) t := by
            rw [pickBestGo_cons, hstep]
          have ihm := ih (some b0) (fun b hb => by
            injection hb with h2; rw [← h2]; exact hb0) hlt
          refine ⟨?_, ?_, ?_, ?_⟩
          · intro b hb; exact ihm.1 b (hgo ▸ hb)
          · intro b hb
            injection hb with hb2
            obtain ⟨c, hc, hbc⟩ := ihm.2.1 b0 rfl
            exact ⟨c, hgo ▸ hc, by rw [← hb2]; exact hbc⟩
          · intro g hg hgq
            rcases List.mem_cons.1 hg with rfl | hgt
            · obtain ⟨c, hc, hbc⟩ := ihm.2.1 b0 rfl
              refine ⟨c, hgo ▸ hc, ?_⟩
              have hgle : g.quality.getD 0 ≤ b0.quality.getD 0 := by
                rw [hqf, hqb]
                simpa using not_lt.1 hcmp
              exact le_trans hgle hbc
            · obtain ⟨c, hc, hgc⟩ := ihm.2.2.1 g hgt hgq
              exact ⟨c, hgo ▸ hc, hgc⟩
          · intro b hb
            rcases ihm.2.2.2 b (hgo ▸ hb) with h1 | h1
            · exact Or.inl h1
            · exact Or.inr (List.mem_cons_of_mem f h1)
    · have hstep : pickBestStep maxVid acc f = .ok acc := by
        unfold pickBestStep; rw [if_neg hq]
      have hgo : pickBestGo maxVid acc (f :: t)
          = pickBestGo maxVid acc t := by
        rw [pickBestGo_cons, hstep]
      have ihm := ih acc hacc hlt
      refine ⟨?_, ?_, ?_, ?_⟩
      · intro b hb; exact ihm.1 b (hgo ▸ hb)
      · intro b hb
        obtain ⟨c, hc, hbc⟩ := ihm.2.1 b hb
        exact ⟨c, hgo ▸ hc, hbc⟩
      · intro g hg hgq
        rcases List.mem_cons.1 hg with rfl | hgt
        · exact absurd hgq hq
        · obtain ⟨c, hc, hgc⟩ := ihm.2.2.1 g hgt hgq
          exact ⟨c, hgo ▸ hc, hgc⟩
      · intro b hb
        rcases ihm.2.2.2 b (hgo ▸ hb) with h1 | h1
        · exact Or.inl h1
        · exact Or.inr (List.mem_cons_of_mem f h1)

/-- Two in-budget renditions of which the first carries an explicit `None`
quality, as real yt-dlp format lists routinely do. -/
def noneQualityFormats : List YtFormat :=
  [{ filesize := some 50, filesizeApprox := none, quality := none },
   { filesize := some 60, filesizeApprox := none, quality := some 5 }]

/-- The yt-dlp info result offering `noneQualityFormats`. -/
def ytNoneQualityInfo : YtInfo :=
  { entries := none,
    entryData := { formats := noneQualityFormats, title := some "v" } }

/-- A yt-dlp world offering `noneQualityFormats` for every URL. -/
def ytNoneQualityNet : NetWorld :=
  { deadNet with
    ytdlpInfo := fun _ => some ytNoneQualityInfo,
    ytdlpDownload := fun _ => some ("/tmp/yt", [("v.mp4", 10)]) }

/-- Counterexample for C6 as stated: a rendition list with an in-budget
rendition on which the Platform Extractor selects nothing at all - the
explicit `None` quality reaches the line-186 comparison, the raised
`TypeError` aborts the scan, and the engine-level catch turns the whole
strategy into "found nothing". -/
theorem c6_counterexample :
    (∃ f ∈ noneQualityFormats, qualifiesFormat MAX_VIDEO_SIZE f = true) ∧
    selectBestFormat MAX_VIDEO_SIZE noneQualityFormats = .error () ∧
    (extractWithYtdlp MAX_VIDEO_SIZE ytNoneQualityNet "http://v.test/x").1
      = none := by
  refine ⟨⟨{ filesize := some 50, filesizeApprox := none, quality := none },
    by decide, by decide⟩, rfl, rfl⟩

/-- Claim C6 (amended): with no rendition inside the video budget the
selection reaches no quality comparison and falls back to the first
offered rendition, still yielding a result; with at least one qualifying
rendition it selects an offered, qualifying rendition of maximal quality -
provided every qualifying rendition carries an integer quality, since an
explicit `None` quality reaching the comparison instead raises `TypeError`
and the strategy yields no result (see the counterexample). -/
theorem c6_format_selection (maxVid : Nat) (formats : List YtFormat) :
    (formats ≠ [] → (∀ f ∈ formats, qualifiesFormat maxVid f = false) →
      selectBestFormat maxVid formats = .ok formats.head? ∧
      ∃ b, selectBestFormat maxVid formats = .ok (some b)) ∧
    ((∃ f ∈ formats, qualifiesFormat maxVid f = true) →
      (∀ f ∈ formats, qualifiesFormat maxVid f = true → f.quality ≠ none) →
      ∃ b, selectBestFormat maxVid formats = .ok (some b) ∧ b ∈ formats ∧
        qualifiesFormat maxVid b = true ∧
        ∀ g ∈ formats, qualifiesFormat maxVid g = true →
          g.quality.getD 0 ≤ b.quality.getD 0) := by
  constructor
  · intro hne hall
    have hnone : pickBest maxVid formats = .ok none :=
      pickBestGo_none maxVid formats none hall
    have hsel : selectBestFormat maxVid formats = .ok formats.head? := by
      unfold selectBestFormat
      rw [hnone]
    refine ⟨hsel, ?_⟩
    cases formats with
    | nil => exact absurd rfl hne
    | cons a t => exact ⟨a, hsel⟩
  · rintro ⟨f, hf, hfq⟩ hql
    have hmain := pickBestGo_spec maxVid formats none (by intro b hb; cases hb) hql
    obtain ⟨c, hc, _⟩ := hmain.2.2.1 f hf hfq
    have hcq := (hmain.1 c hc).1
    have hcmem : c ∈ formats := by
      rcases hmain.2.2.2 c hc with h | h
      · cases h
      · exact h
    have hsel : selectBestFormat maxVid formats = .ok (some c) := by
      unfold selectBestFormat
      rw [show pickBest maxVid formats = .ok (some c) from hc]
    refine ⟨c, hsel, hcmem, hcq, ?_⟩
    intro g hg hgq
    obtain ⟨c2, hc2, hgc2⟩ := hmain.2.2.1 g hg hgq
    rw [hc] at hc2
    injection hc2 with hc3
    injection hc3 with hc4
    rw [hc4]
    exact hgc2

/-- Two renditions both beyond a 3GB budget. -/
def overFormats : List YtFormat :=
  [{ filesize := some 4000000000, filesizeApprox := none, quality := some 9 },
   { filesize := some 5000000000, filesizeApprox := none, quality := some 10 }]

/-- Renditions of which two fit a budget of 100 bytes, all with integer
qualities. -/
def mixedFormats : List YtFormat :=
  [{ filesize := some 300, filesizeApprox := none, quality := some 9 },
   { filesize := some 50, filesizeApprox := none, quality := some 1 },
   { filesize := some 60, filesizeApprox := none, quality := some 7 },
   { filesize := none, filesizeApprox := some 70, quality := some 3 }]

/-- Witness for C6 (amended): both branches at concrete rendition lists. -/
theorem c6_witness :
    (selectBestFormat MAX_VIDEO_SIZE overFormats = .ok overFormats.head? ∧
     ∃ b, selectBestFormat MAX_VIDEO_SIZE overFormats = .ok (some b)) ∧
    (∃ b, selectBestFormat 100 mixedFormats = .ok (some b) ∧
      b ∈ mixedFormats ∧ qualifiesFormat 100 b = true ∧
      ∀ g ∈ mixedFormats, qualifiesFormat 100 g = true →
        g.quality.getD 0 ≤ b.quality.getD 0) :=
  ⟨(c6_format_selection MAX_VIDEO_SIZE overFormats).1 (by decide) (by decide),
   (c6_format_selection 100 mixedFormats).2
     ⟨{ filesize := some 50, filesizeApprox := none, quality := some 1 },
      by decide, by decide⟩ (by decide)⟩

/-- In a table with pairwise distinct keys (the dict invariant) a key
determines its entry. -/
theorem keysNodup_inj {α β : Type} :
    ∀ (t : List (α × β)), (t.map Prod.fst).Nodup →
      ∀ (k : α) (a b : β), (k, a) ∈ t → (k, b) ∈ t → a = b := by
  intro t
  induction t with
  | nil => intro _ k a b ha _; simp at ha
  | cons kv rest ih =>
    intro hnd k a b ha hb
    simp only [List.map_cons, List.nodup_cons] at hnd
    rcases List.mem_cons.1 ha with rfl | ha2
    · rcases List.mem_cons.1 hb with hb1 | hb2
      · injection hb1 with h1 h2; exact h2.symm
      · exact absurd (List.mem_map_of_mem Prod.fst hb2) (by simpa using hnd.1)
    · rcases List.mem_cons.1 hb with rfl | hb2
      · exact absurd (List.mem_map_of_mem Prod.fst ha2) (by simpa using hnd.1)
      · exact ih hnd.2 k a b ha2 hb2

/-- The warned-keys projection of a sweep whose task scheduling works. -/
theorem sweep_warnKeys (thr now : Int) (deleteOk : Int → Int → Bool)
    (table : List (String × MsgEntry)) :
    (sweep thr now true deleteOk table).2.1
      = (table.filter (fun kv => warnCond thr now kv.2)).map Prod.fst := rfl

/-- The post-sweep table projection of a sweep whose task scheduling
works. -/
theorem sweep_table (thr now : Int) (deleteOk : Int → Int → Bool)
    (table : List (String × MsgEntry)) :
    (sweep thr now true deleteOk table).1
      = (table.map (fun kv =>
          if warnCond thr now kv.2 then (kv.1, { kv.2 with warned := true })
          else kv)).filter (fun kv =>
            !((table.filter (fun kv2 => expireCond thr now kv2.2)).map
              Prod.fst).contains kv.1) := rfl

/-- A key of the table whose entry satisfies the warning condition. -/
theorem mem_warnKeys_warnCond (thr now : Int) (deleteOk : Int → Int → Bool)
    (table : List (String × MsgEntry))
    (hkeys : (table.map Prod.fst).Nodup) (k : String) (e : MsgEntry)
    (hke : (k, e) ∈ table) (hk : k ∈ (sweep thr now true deleteOk table).2.1) :
    warnCond thr now e = true := by
  rw [sweep_warnKeys] at hk
  obtain ⟨kv, hkv, hfst⟩ := List.mem_map.1 hk
  obtain ⟨hmem, hcond⟩ := List.mem_filter.1 hkv
  obtain ⟨k1, e1⟩ := kv
  cases hfst
  rw [keysNodup_inj table hkeys k1 e e1 hke hmem]
  exact hcond

/-- The sweep algorithm the source spells out - the behaviour the spec
describes and the worker's own log messages announce - holds whenever the
`asyncio.create_task` calls succeed (`createTaskOk = true`): the warning
list has no repeated key, an already-warned entry is never warned again, a
warned entry stays marked warned, and an expired entry is removed whatever
the delete-call outcome is.  The program never reaches this case: see the
C3 theorem below. -/
theorem sweep_intended_behavior (thr now : Int) (deleteOk : Int → Int → Bool)
    (table : List (String × MsgEntry))
    (hkeys : (table.map Prod.fst).Nodup) :
    (sweep thr now true deleteOk table).2.1.Nodup ∧
    (∀ k e, (k, e) ∈ table → e.warned = true →
      k ∉ (sweep thr now true deleteOk table).2.1) ∧
    (∀ k e, (k, e) ∈ table →
      (e.warned = true ∨ k ∈ (sweep thr now true deleteOk table).2.1) →
      ∀ e2, (k, e2) ∈ (sweep thr now true deleteOk table).1 →
        e2.warned = true) ∧
    (∀ k e, (k, e) ∈ table → expireCond thr now e = true →
      ∀ e2, (k, e2) ∉ (sweep thr now true deleteOk table).1) := by
  refine ⟨?_, ?_, ?_, ?_⟩
  · rw [sweep_warnKeys]
    exact hkeys.sublist ((List.filter_sublist table).map Prod.fst)
  · intro k e hke hw hk
    have hcond := mem_warnKeys_warnCond thr now deleteOk table hkeys k e hke hk
    simp [warnCond, hw] at hcond
  · intro k e hke hcase e2 h2
    rw [sweep_table] at h2
    have h3 := List.mem_of_mem_filter h2
    obtain ⟨⟨k1, e1⟩, h4, h5⟩ := List.mem_map.1 h3
    by_cases hw1 : warnCond thr now e1 = true
    · rw [if_pos hw1] at h5
      injection h5 with hk1 he2
      subst hk1
      rw [← he2]
    · rw [if_neg hw1] at h5
      injection h5 with hk1 he2
      subst hk1
      have he1 : e1 = e := keysNodup_inj table hkeys k1 e1 e h4 hke
      subst he1
      rcases hcase with hw | hk
      · rw [← he2]; exact hw
      · exact absurd (mem_warnKeys_warnCond thr now deleteOk table hkeys
          k1 e1 hke hk) hw1
  · intro k e hke hexp e2 h2
    rw [sweep_table] at h2
    have hpred := (List.mem_filter.1 h2).2
    have hkdel : k ∈ (table.filter (fun kv2 => expireCond thr now kv2.2)).map
        Prod.fst :=
      List.mem_map_of_mem Prod.fst (List.mem_filter.2 ⟨hke, hexp⟩)
    simp only [Bool.not_eq_true'] at hpred
    rw [(by simpa using hkdel :
      ((table.filter (fun kv2 => expireCond thr now kv2.2)).map
        Prod.fst).contains k = true)] at hpred
    exact Bool.noConfusion hpred

/-- The expired entry of the failing-input table. -/
def eW1 : MsgEntry :=
  { chatId := 1, messageId := 1, sentTime := 1000, filename := "a.jpg",
    warned := false }

/-- The in-warning-window, not yet warned entry of the failing-input
table. -/
def eW2 : MsgEntry :=
  { chatId := 1, messageId := 2, sentTime := 6500, filename := "b.jpg",
    warned := false }

/-- The failing-input table: one expired entry, one in the warning
window. -/
def tableW : List (String × MsgEntry) := [("1_1", eW1), ("1_2", eW2)]

/-- Claim C3 (code bug): `auto_delete_worker` runs in a plain daemon
thread with no running asyncio event loop, so its `asyncio.create_task`
calls raise `RuntimeError`; the surrounding `except` swallows the raise,
and the flag-set and `del` that follow the call never execute.  Every
sweep of the program is therefore a no-op - no entry is ever removed, no
warning is ever delivered and no `warned` flag is ever set - contradicting
the claimed always-removed and warned-once behaviour; evaluated also at a
concrete table whose expired entry stays tracked, with no delete request
issued. -/
theorem c3_sweep_noop_in_thread :
    (∀ (thr now : Int) (deleteOk : Int → Int → Bool)
      (table : List (String × MsgEntry)),
      sweep thr now false deleteOk table = (table, [], [])) ∧
    expireCond 3600 10000 eW1 = true ∧
    ("1_1", eW1) ∈ (sweep 3600 10000 false (fun _ _ => true) tableW).1 ∧
    warnCond 3600 10000 eW2 = true ∧
    (sweep 3600 10000 false (fun _ _ => true) tableW).2.1 = [] ∧
    (sweep 3600 10000 false (fun _ _ => true) tableW).2.2 = [] :=
  ⟨fun _ _ _ _ => rfl, by decide, by decide, by decide, by decide, by decide⟩

/-- A small plain HTML page response. -/
def rHtmlPage : Response :=
  { status := 200, contentLength := none, contentType := some "text/html",
    chunks := [[1]] }

/-- A network world that serves one fixed HTML page body to every GET. -/
def emptyPageNet : NetWorld :=
  { deadNet with get := fun _ => some rHtmlPage }

/-- A 404 response. -/
def r404 : Response :=
  { status := 404, contentLength := none, contentType := some "text/html",
    chunks := [] }

/-- A network world answering every GET with a 404. -/
def net404 : NetWorld := { deadNet with get := fun _ => some r404 }

/-- Counterexample for C4 as stated: when the page fetch raises, the Page
Scraper returns the no-result outcome `none` - the same observable result
as a successfully fetched page containing no media - instead of
propagating the fetch error (the catch-all at the end of
`_scrape_media_from_page` swallows it). -/
theorem c4_counterexample :
    scrapeMediaFromPage MAX_DOCUMENT_SIZE guessExtBasic md5hexFixed
      urljoinBasic (fun _ => []) (fun _ => emptyPage) deadNet
      "http://dead.test/page"
      = (none, [], [NetOp.get "http://dead.test/page"]) ∧
    (scrapeMediaFromPage MAX_DOCUMENT_SIZE guessExtBasic md5hexFixed
      urljoinBasic (fun _ => []) (fun _ => emptyPage) emptyPageNet
      "http://dead.test/page").1 = none := by
  exact ⟨rfl, rfl⟩

/-- Claim C4 (amended): a failed page fetch (raised exception or error
status) makes the Page Scraper return the empty result `none` after only
the one GET, with the failure logged and swallowed rather than propagated
upward. -/
theorem c4_scrape_fetch_failure (maxDoc : Nat)
    (guessExt : String → Option String) (md5hex : String → String)
    (urljoin : String → String → String) (imgMatches : String → List String)
    (parseHtml : List Nat → Page) (net : NetWorld) (url : String) :
    (net.get url = none →
      scrapeMediaFromPage maxDoc guessExt md5hex urljoin imgMatches parseHtml
        net url = (none, [], [NetOp.get url])) ∧
    (∀ r, net.get url = some r → statusError r = true →
      scrapeMediaFromPage maxDoc guessExt md5hex urljoin imgMatches parseHtml
        net url = (none, [], [NetOp.get url])) := by
  constructor
  · intro h
    unfold scrapeMediaFromPage
    rw [h]
  · intro r hr hs
    unfold scrapeMediaFromPage
    rw [hr]
    dsimp only
    rw [if_pos hs]

/-- Witness for C4 (amended) at a concrete 404 world. -/
theorem c4_witness :
    net404.get "http://x.test/page" = some r404 ∧
    statusError r404 = true ∧
    scrapeMediaFromPage MAX_DOCUMENT_SIZE guessExtBasic md5hexFixed
      urljoinBasic (fun _ => []) (fun _ => emptyPage) net404
      "http://x.test/page" = (none, [], [NetOp.get "http://x.test/page"]) :=
  ⟨rfl, by decide,
   (c4_scrape_fetch_failure MAX_DOCUMENT_SIZE guessExtBasic md5hexFixed
     urljoinBasic (fun _ => []) (fun _ => emptyPage) net404
     "http://x.test/page").2 r404 rfl (by decide)⟩

/-! Nodup preservation through the scraper's candidate collection. -/

/-- Inserting into the set model preserves distinctness. -/
theorem insertSet_nodup (s : List String) (x : String) (h : s.Nodup) :
    (insertSet s x).Nodup := by
  unfold insertSet
  split
  · exact h
  · next hc =>
    have hx : x ∉ s := fun hm => hc (by simpa using hm)
    simp [List.nodup_append, h, hx]

/-- A fold whose step preserves distinctness preserves distinctness. -/
theorem foldl_nodup {β : Type} (f : List String → β → List String)
    (hf : ∀ s b, s.Nodup → (f s b).Nodup) :
    ∀ (l : List β) (s : List String), s.Nodup → (l.foldl f s).Nodup := by
  intro l
  induction l with
  | nil => exact fun s h => h
  | cons b t ih => exact fun s h => ih (f s b) (hf s b h)

/-- The join-and-add step preserves distinctness. -/
theorem addIfSupported_nodup (urljoin : String → String → String)
    (base : String) (s : List String) (v : String) (h : s.Nodup) :
    (addIfSupported urljoin base s v).Nodup := by
  unfold addIfSupported
  dsimp only
  split
  · exact insertSet_nodup _ _ h
  · exact h

/-- The Google-images inner loop preserves distinctness. -/
theorem googleAddMatches_nodup :
    ∀ (l : List String) (s : List String), s.Nodup →
      (googleAddMatches s l).Nodup := by
  intro l
  induction l with
  | nil => exact fun s h => h
  | cons m ms ih =>
    intro s h
    unfold googleAddMatches
    dsimp only
    split
    · split
      · exact insertSet_nodup _ _ h
      · exact ih _ (insertSet_nodup _ _ h)
    · exact ih s h

/-- The Google-images outer loop preserves distinctness. -/
theorem googleScan_nodup (imgMatches : String → List String) :
    ∀ (scripts : List (Option String)) (s : List String), s.Nodup →
      (googleScan imgMatches s scripts).Nodup := by
  intro scripts
  induction scripts with
  | nil => exact fun s h => h
  | cons sc rest ih =>
    intro s h
    cases sc with
    | none => exact ih s h
    | some str =>
      unfold googleScan
      dsimp only
      split
      · exact googleAddMatches_nodup _ s h
      · exact ih _ (googleAddMatches_nodup _ s h)

/-- The first image pass preserves distinctness. -/
theorem imgPass1_nodup (urljoin : String → String → String) (pageUrl : String)
    (imgs : List ImgTag) (s : List String) (h : s.Nodup) :
    (imgPass1 urljoin pageUrl s imgs).Nodup := by
  unfold imgPass1
  refine foldl_nodup _ ?_ imgs s h
  intro s2 img h2
  cases himg : img.src with
  | none => simpa [himg] using h2
  | some src =>
    simp only [himg]
    split
    · exact h2
    · split
      · exact h2
      · split
        · exact insertSet_nodup _ _ h2
        · exact h2

/-- The lazy-load image pass preserves distinctness. -/
theorem imgPass2_nodup (urljoin : String → String → String) (pageUrl : String)
    (imgs : List ImgTag) (s : List String) (h : s.Nodup) :
    (imgPass2 urljoin pageUrl s imgs).Nodup := by
  unfold imgPass2
  refine foldl_nodup _ ?_ imgs s h
  intro s2 img h2
  cases himg : img.dataSrc with
  | none => simpa [himg] using h2
  | some d =>
    simp only [himg]
    split
    · exact h2
    · exact addIfSupported_nodup _ _ _ _ h2

/-- The shared source-list pass preserves distinctness. -/
theorem addSrcList_nodup (urljoin : String → String → String)
    (pageUrl : String) (l : List String) (s : List String) (h : s.Nodup) :
    (addSrcList urljoin pageUrl s l).Nodup := by
  unfold addSrcList
  refine foldl_nodup _ ?_ l s h
  intro s2 v h2
  dsimp only
  split
  · exact h2
  · exact addIfSupported_nodup _ _ _ _ h2

/-- The collected candidate set is duplicate-free. -/
theorem collectMediaUrls_nodup (urljoin : String → String → String)
    (imgMatches : String → List String) (url : String) (page : Page) :
    (collectMediaUrls urljoin imgMatches url page).Nodup := by
  unfold collectMediaUrls
  dsimp only
  have h1 : (if strContains url "google.com" && strContains url "tbm=isch"
      then googleScan imgMatches [] page.scripts else ([] : List String)).Nodup := by
    split
    · exact googleScan_nodup imgMatches page.scripts [] List.nodup_nil
    · exact List.nodup_nil
  have h6 := addSrcList_nodup urljoin url page.linkHrefs _
    (addSrcList_nodup urljoin url page.sourceSrcs _
      (addSrcList_nodup urljoin url page.videoSrcs _
        (imgPass2_nodup urljoin url page.imgs _
          (imgPass1_nodup urljoin url page.imgs _ h1))))
  rcases hog : page.ogImage with _ | c
  · exact h6
  · rcases c with _ | c2
    · exact h6
    · dsimp only
      split
      · exact h6
      · exact addIfSupported_nodup _ _ _ _ h6

/-- A successful per-candidate download's descriptor carries that
candidate's URL. -/
theorem downloadFromUrl_url (maxDoc : Nat) (guessExt : String → Option String)
    (md5hex : String → String) (net : NetWorld) (u : String) (mi : MediaInfo)
    (h : (downloadFromUrl maxDoc guessExt md5hex net u).1 = .ok mi) :
    mi.url = u := by
  unfold downloadFromUrl at h
  cases hg : net.get u with
  | none => rw [hg] at h; simp at h
  | some r =>
    rw [hg] at h
    dsimp only at h
    unfold downloadDirectMedia at h
    dsimp only at h
    split at h
    · simp at h
    · split at h
      · simp at h
      · split at h
        · simp at h
        · split at h
          · simp at h
          · dsimp only at h
            injection h with h2
            rw [← h2]

/-- The URLs of the scrape download loop's descriptors form a sublist of
the candidate list. -/
theorem scrapeDownloads_urls (maxDoc : Nat) (guessExt : String → Option String)
    (md5hex : String → String) (net : NetWorld) :
    ∀ cands, List.Sublist
      (((scrapeDownloads maxDoc guessExt md5hex net cands).1).map MediaInfo.url)
      cands := by
  intro cands
  induction cands with
  | nil => simp [scrapeDownloads]
  | cons u rest ih =>
    unfold scrapeDownloads
    dsimp only
    split
    · next mi hmi =>
      dsimp only
      rw [List.map_cons, downloadFromUrl_url maxDoc guessExt md5hex net u mi hmi]
      exact ih.cons₂ u
    · exact ih.cons u

/-- Claim C5: the Page Scraper returns at most five descriptors and no two
of its descriptors share a `source_url`, whatever the page contents and the
network do. -/
theorem c5_scraper_cap_dedup (maxDoc : Nat)
    (guessExt : String → Option String) (md5hex : String → String)
    (urljoin : String → String → String) (imgMatches : String → List String)
    (parseHtml : List Nat → Page) (net : NetWorld) (url : String) :
    (((scrapeMediaFromPage maxDoc guessExt md5hex urljoin imgMatches
        parseHtml net url).1.getD []).length ≤ 5) ∧
    ((((scrapeMediaFromPage maxDoc guessExt md5hex urljoin imgMatches
        parseHtml net url).1.getD []).map MediaInfo.url).Nodup) := by
  unfold scrapeMediaFromPage
  cases hg : net.get url with
  | none => simp
  | some r =>
    dsimp only
    split
    · simp
    · dsimp only
      have hsub := scrapeDownloads_urls maxDoc guessExt md5hex net
        ((collectMediaUrls urljoin imgMatches url
          (parseHtml r.chunks.flatten)).take 5)
      have hcnd : ((collectMediaUrls urljoin imgMatches url
          (parseHtml r.chunks.flatten)).take 5).Nodup :=
        (collectMediaUrls_nodup urljoin imgMatches url
          (parseHtml r.chunks.flatten)).sublist (List.take_sublist 5 _)
      have hnd := hcnd.sublist hsub
      have hlen : ((scrapeDownloads maxDoc guessExt md5hex net
          ((collectMediaUrls urljoin imgMatches url
            (parseHtml r.chunks.flatten)).take 5)).1).length ≤ 5 := by
        have h1 := hsub.length_le
        rw [List.length_map] at h1
        exact le_trans h1 (by simp [List.length_take])
      split
      · simp
      · exact ⟨by simpa using hlen, by simpa using hnd⟩

end MediaBot
